import Mathlib

/-!
Verification of the cartridge-cli slice described in the specification:
the minimal runtime bootstrap script (`test/files/init_no_cartridge.lua`),
the instance argument parser (`GetInstancesFromArgs`), the file tail offset
finder (`GetLastNLinesBegin`), the shell completion generator
(`cli/commands/gen.go`) and the CPIO archive builder (`cli/rpm/cpio.go`).

Pure functions are embedded directly; stateful code (the completion
generator and the CPIO builder) is embedded as explicit state passing over
a small file-system model; the external archiver process and the shell
completion generators of the CLI framework are opaque and enter as
parameters.  File contents handled line by line are modelled as `List
String`; raw byte contents as `String`.
-/

/-! ## Minimal runtime bootstrap script (`test/files/init_no_cartridge.lua`)

The script runs a fixed sequence of steps.  The failure-relevant
environment (Tarantool version, `NOTIFY_SOCKET` / `TARANTOOL_CONSOLE_SOCK`
variables, and whether the socket operations succeed) is captured in
`BootEnv`; a Lua `assert` failure aborts the script with the given message.
-/

structure BootEnv where
  tntMajor : Nat
  tntMinor : Nat
  notifySocket : Option String
  /-- whether `socket('AF_UNIX', 'SOCK_DGRAM', 0)` succeeds -/
  socketCreateOk : Bool
  consoleSock : Option String
  /-- whether `console.listen(sock_path)` succeeds (binds the Unix socket) -/
  consoleListenOk : Bool
deriving DecidableEq, Repr

inductive BootResult where
  | completed
  | aborted (msg : String)
deriving DecidableEq, Repr

/-- `tnt_major < 2 or (tnt_major == 2 and tnt_minor < 2)` -/
def notifyShimApplies (env : BootEnv) : Bool :=
  decide (env.tntMajor < 2) || (decide (env.tntMajor = 2) && decide (env.tntMinor < 2))

/-- The bootstrap script, step by step.  `strict.on()`, `fiber.create` and
`log.info` have no failure mode relevant here.  The `NOTIFY_SOCKET` shim
runs `assert(socket(...), 'Can not create socket')`; the console step runs
`assert(pcall(console.listen, sock_path))`: `pcall` returns `false` when
`console.listen` raises, and `assert(false, ...)` re-raises, aborting the
script. -/
def initNoCartridge (env : BootEnv) : BootResult :=
  if notifyShimApplies env && env.notifySocket.isSome && !env.socketCreateOk then
    .aborted "Can not create socket"
  else if env.consoleSock.isSome && !env.consoleListenOk then
    .aborted "console.listen failed"
  else
    .completed

/-! ## Instance argument parser

`GetInstancesFromArgs` is not present in the reviewed sources (only its
test, `TestGetInstancesFromArgs`); it is modelled from the spec (§4.2)
below, and checked against the concrete expectations of the test. -/

inductive ArgError where
  | invalidArgument (msg : String)
deriving DecidableEq, Repr

/-- Modelled from the spec: message for rule 1 ("instance ID specified");
the exact constant `instanceIDSpecified` is not in the reviewed sources. -/
def instanceIDSpecified : String := "instance ID specified"

/-- Modelled from the spec: message for rules 2/3 ("application name
specified"); the exact constant `appNameSpecifiedError` is not in the
reviewed sources. -/
def appNameSpecifiedError : String := "application name specified"

/-- Message exercised by `TestGetInstancesFromArgs`. -/
def duplicateInstanceError (name : String) : String :=
  "Duplicate instance name specified: " ++ name

/-- First argument that repeats an earlier one, scanning left to right. -/
def firstDupAux (seen : List String) : List String → Option String
  | [] => none
  | x :: xs => if x ∈ seen then some x else firstDupAux (x :: seen) xs

def firstDup (args : List String) : Option String := firstDupAux [] args

/-- Modelled from the spec: `GetInstancesFromArgs` is missing from the
reviewed sources.  Rules of §4.2 in order: (1) any argument containing `.`
fails with "instance ID specified"; (2)/(3) an argument list that is the
application name alone, or mixes it with other arguments in any position,
fails with "application name specified"; (4) a duplicated instance name
fails naming the first duplicate; (5) otherwise the arguments are returned
unchanged. -/
def GetInstancesFromArgs (args : List String) (appName : String) :
    Except ArgError (List String) :=
  if args.any (fun a => a.toList.contains '.') then
    .error (.invalidArgument instanceIDSpecified)
  else if appName ∈ args then
    .error (.invalidArgument appNameSpecifiedError)
  else
    match firstDup args with
    | some name => .error (.invalidArgument (duplicateInstanceError name))
    | none => .ok args

/-! ## File tail offset finder

`GetLastNLinesBegin` is not present in the reviewed sources (only its
test, `TestGetLastNLinesBegin`); it is modelled from the spec (§4.1)
below, on the file's content as a `List Char`, and checked against the
concrete expectations of the test.  The chunked backward scan of the
implementation is a memory optimisation with no semantic content, so the
model computes the contractual result directly. -/

/-- Number of newline characters in the content. -/
def countNl : List Char → Nat
  | [] => 0
  | c :: rest => (if c = '\n' then 1 else 0) + countNl rest

/-- Whether the content ends with a newline character. -/
def endsWithNl : List Char → Bool
  | [] => false
  | [c] => c = '\n'
  | _ :: c :: rest => endsWithNl (c :: rest)

/-- Number of newline-delimited lines: a trailing newline terminates the
last line rather than starting an additional empty one. -/
def totalLines (s : List Char) : Nat :=
  if s.isEmpty then 0
  else countNl s + (if endsWithNl s then 0 else 1)

/-- Byte offset immediately after the `k`-th newline of the content
(1-indexed); `0` for `k = 0`. -/
def offsetAfterNl : List Char → Nat → Nat
  | _, 0 => 0
  | [], _ + 1 => 0
  | c :: rest, k + 1 =>
    if c = '\n' then 1 + offsetAfterNl rest k else 1 + offsetAfterNl rest (k + 1)

/-- Modelled from the spec: `GetLastNLinesBegin` is missing from the
reviewed sources.  Policy of §4.1: the absolute value of `n` is used; if
it is `0` or exceeds the number of lines the result is `0`, otherwise the
result is the offset immediately after the `(totalLines - |n|)`-th
newline. -/
def GetLastNLinesBegin (s : List Char) (n : Int) : Nat :=
  if n.natAbs = 0 then 0
  else if totalLines s < n.natAbs then 0
  else offsetAfterNl s (totalLines s - n.natAbs)

/-! ### Fidelity to `TestGetLastNLinesBegin` -/

def sevenLines : List Char := "one\ntwo\nthree\nfour\nfive\nsix\nseven".toList

theorem testLastNLines_zero : GetLastNLinesBegin sevenLines 0 = 0 := by decide

theorem testLastNLines_zero_trailing :
    GetLastNLinesBegin (sevenLines ++ ['\n']) 0 = 0 := by decide

theorem testLastNLines_two :
    sevenLines.drop (GetLastNLinesBegin sevenLines 2) = "six\nseven".toList := by decide

theorem testLastNLines_two_trailing :
    (sevenLines ++ ['\n']).drop (GetLastNLinesBegin (sevenLines ++ ['\n']) 2)
      = "six\nseven\n".toList := by decide

theorem testLastNLines_hundred : GetLastNLinesBegin sevenLines 100 = 0 := by decide

/-! ## Shell completion generator (`cli/commands/gen.go`)

`genCompletion` is embedded as a pure state transformer over a small
file-system model: a set of directories plus a map from paths to file
contents, a file content being its list of lines.  The scripts produced by
the CLI framework's built-in generators (`GenBashCompletionFile`,
`GenZshCompletionFile`) are opaque and enter as parameters. -/

structure FS where
  dirs : List String
  files : List (String × List String)
deriving Repr

def FS.lookup (fs : FS) (p : String) : Option (List String) :=
  (fs.files.find? (fun e => e.1 == p)).map (fun e => e.2)

/-- `os.MkdirAll` (parent directories elided: only the leaf directory is
tracked). -/
def FS.mkdirAll (fs : FS) (d : String) : FS :=
  { fs with dirs := d :: fs.dirs }

/-- `os.RemoveAll` on a file path. -/
def FS.removeAll (fs : FS) (p : String) : FS :=
  { fs with files := fs.files.filter (fun e => e.1 != p) }

/-- Create or overwrite the file at `p` with the given lines. -/
def FS.write (fs : FS) (p : String) (content : List String) : FS :=
  { fs with files := (p, content) :: fs.files.filter (fun e => e.1 != p) }

/-- Everything before the last `/` of the path, or `none` when the path
has no `/`. -/
def beforeLastSlash : List Char → Option (List Char)
  | [] => none
  | c :: rest =>
    match beforeLastSlash rest with
    | some tail => some (c :: tail)
    | none => if c = '/' then some [] else none

/-- `filepath.Dir` on the clean, slash-separated relative paths used
here: the path with its last `/`-separated component removed, `"."` when
there is none. -/
def dirOf (p : String) : String :=
  match beforeLastSlash p.toList with
  | some d => String.mk d
  | none => "."

/-- `\w` of the Go regexp: `[0-9A-Za-z_]`, here extended with `-` as in the
character class `[\w-]`. -/
def isWordOrDash (c : Char) : Bool :=
  c.isAlphanum || c = '_' || c = '-'

/-- Whether the line starts (at its head) with a match of the Go regexp
`two_word_flags\+=\("--[\w-]+"\)`. -/
def twoWordFlagsMatchAt (l : List Char) : Bool :=
  let pre := "two_word_flags+=(\"--".toList
  if pre.isPrefixOf l then
    let rest := (l.drop pre.length).dropWhile isWordOrDash
    decide (0 < ((l.drop pre.length).takeWhile isWordOrDash).length)
      && "\")".toList.isPrefixOf rest
  else false

/-- Whether the line contains a match of the regexp anywhere. -/
def twoWordFlagsMatch : List Char → Bool
  | [] => false
  | c :: rest => twoWordFlagsMatchAt (c :: rest) || twoWordFlagsMatch rest

def matchesTwoWordFlags (l : String) : Bool := twoWordFlagsMatch l.toList

/-- Modelled from the spec: `common.ReplaceFileLinesByRe` is missing from
the reviewed sources; per §4.4 every line matching the two-word-flags
pattern is commented out by prefixing it with `# `, in place. -/
def commentTwoWordFlags (l : String) : String :=
  if matchesTwoWordFlags l then "# " ++ l else l

/-- Modelled from the spec: `common.ReplaceFileLinesByRe` is missing from
the reviewed sources; it rewrites the file at `p` line by line through
`f`, leaving the file system unchanged when the file is absent. -/
def replaceFileLines (fs : FS) (p : String) (f : String → String) : FS :=
  match fs.lookup p with
  | some ls => fs.write p (ls.map f)
  | none => fs

/-- `genCompletion` of `cli/commands/gen.go` on the success path, in
source order: both completion directories are created, then for each
non-skipped shell the pre-existing file is removed and the script written;
the Bash script is then rewritten line by line through
`commentTwoWordFlags`.  `bashScript` and `zshScript` stand for the output
of the CLI framework's generators. -/
def genCompletion (skipBash skipZsh : Bool) (bashPath zshPath : String)
    (bashScript zshScript : List String) (fs : FS) : FS :=
  let fs1 := (fs.mkdirAll (dirOf bashPath)).mkdirAll (dirOf zshPath)
  let fs2 :=
    if skipBash then fs1
    else
      replaceFileLines ((fs1.removeAll bashPath).write bashPath bashScript)
        bashPath commentTwoWordFlags
  if skipZsh then fs2
  else (fs2.removeAll zshPath).write zshPath zshScript

/-! ## CPIO archive builder (`cli/rpm/cpio.go`)

`packCpio` is embedded as a state transformer over a file-to-content map.
The external `cpio` process is opaque: its resolved binary path, exit
status, standard-error text and the bytes it streams to standard output
enter as a `CpioEnv`. -/

inductive CpioError where
  | ioFailure (msg : String)
  | externalToolFailure (msg : String)
deriving DecidableEq, Repr

structure CpioFS where
  files : List (String × String)
deriving Repr

def CpioFS.lookup (fs : CpioFS) (p : String) : Option String :=
  (fs.files.find? (fun e => e.1 == p)).map (fun e => e.2)

def CpioFS.write (fs : CpioFS) (p : String) (content : String) : CpioFS :=
  { files := (p, content) :: fs.files.filter (fun e => e.1 != p) }

structure CpioEnv where
  /-- resolved path of the `cpio` binary, as printed by `cmd.String()` -/
  cpioPath : String
  /-- whether `os.Create(resFileName)` succeeds -/
  createOk : Bool
  /-- whether the archiver process exits with status zero -/
  exitOk : Bool
  /-- captured standard error of the archiver -/
  stderr : String
  /-- bytes the archiver streams to standard output (possibly partial), as
  a function of what it reads on standard input -/
  output : String → String

/-- `cmd.String()` for `exec.Command("cpio", "-o", "-H", "newc")`. -/
def cpioCmdString (env : CpioEnv) : String := env.cpioPath ++ " -o -H newc"

/-- The newline-joined manifest written to the archiver's standard input. -/
def cpioStdin (relPaths : List String) : String :=
  String.intercalate "\n" relPaths

/-- `packCpio` of `cli/rpm/cpio.go`: `os.Create` creates/truncates the
output file; the archiver's standard output is streamed into it (the
deferred `Flush`/`Close` run on every return path); a non-zero exit yields
`Failed to run \n<cmd>\n\nStderr: <stderr>`. -/
def packCpio (relPaths : List String) (resFileName : String) (env : CpioEnv)
    (fs : CpioFS) : CpioFS × Except CpioError Unit :=
  if !env.createOk then
    (fs, .error (.ioFailure ("open " ++ resFileName ++ ": failed")))
  else
    let fs1 := (fs.write resFileName "").write resFileName
      (env.output (cpioStdin relPaths))
    if env.exitOk then (fs1, .ok ())
    else
      (fs1, .error (.externalToolFailure
        ("Failed to run \n" ++ cpioCmdString env ++ "\n\nStderr: " ++ env.stderr)))

/-! ## Claim C1: console listener bind failure in the bootstrap script -/

def consoleFailEnv : BootEnv :=
  { tntMajor := 2, tntMinor := 8, notifySocket := none, socketCreateOk := true,
    consoleSock := some "/tmp/console.sock", consoleListenOk := false }

/-- C1 counterexample: with `TARANTOOL_CONSOLE_SOCK` set and the console
listener failing to bind (and no other failure), the bootstrap script does
NOT continue: `assert(pcall(console.listen, sock_path))` re-raises the
bind failure and aborts, so the claim that startup continues silently is
false. -/
theorem C1_counterexample :
    initNoCartridge consoleFailEnv = .aborted "console.listen failed" ∧
    initNoCartridge consoleFailEnv ≠ .completed := by
  decide

/-- C1 (amended): when `TARANTOOL_CONSOLE_SOCK` is set and the console
listener fails to bind (and the `NOTIFY_SOCKET` shim has not already
aborted), the bootstrap script aborts: the bind failure is caught by
`pcall` but re-raised by the surrounding `assert`, so it is not tolerated
silently. -/
theorem C1_console_bind_failure_aborts (env : BootEnv)
    (hsock : env.consoleSock.isSome = true)
    (hfail : env.consoleListenOk = false)
    (hshim : (notifyShimApplies env && env.notifySocket.isSome
      && !env.socketCreateOk) = false) :
    initNoCartridge env = .aborted "console.listen failed" ∧
    initNoCartridge env ≠ .completed := by
  unfold initNoCartridge
  rw [hshim, hsock, hfail]
  simp

theorem C1_witness :
    initNoCartridge consoleFailEnv = .aborted "console.listen failed" ∧
    initNoCartridge consoleFailEnv ≠ .completed :=
  C1_console_bind_failure_aborts consoleFailEnv (by decide) (by decide) (by decide)

/-! ## Claim C5: dotted arguments are rejected first -/

/-- C5: any argument list containing a `.`-bearing argument (the
`appName.instanceName` addressing form) is rejected with the
"instance ID specified" InvalidArgument error, whatever the rest of the
list looks like — in particular before the application-name and duplicate
checks, and for both single-dotted and mixed lists. -/
theorem C5_dotted_argument_rejected (args : List String) (appName : String)
    (h : args.any (fun a => a.toList.contains '.') = true) :
    GetInstancesFromArgs args appName =
      .error (.invalidArgument instanceIDSpecified) := by
  unfold GetInstancesFromArgs
  rw [h]
  rfl

theorem C5_witness :
    GetInstancesFromArgs ["myapp", "myapp.instance-2", "dup", "dup"] "myapp" =
      .error (.invalidArgument instanceIDSpecified) :=
  C5_dotted_argument_rejected _ _ (by decide)

/-! ## Claim C6: the application name is rejected, alone or mixed -/

/-- C6: a `.`-free argument list that contains the project's application
name — alone or mixed with other arguments in any position — is rejected
with the "application name specified" InvalidArgument error. -/
theorem C6_app_name_rejected (args : List String) (appName : String)
    (h1 : args.any (fun a => a.toList.contains '.') = false)
    (h2 : appName ∈ args) :
    GetInstancesFromArgs args appName =
      .error (.invalidArgument appNameSpecifiedError) := by
  unfold GetInstancesFromArgs
  rw [h1]
  simp [h2]

theorem C6_witness :
    GetInstancesFromArgs ["instance-1", "myapp"] "myapp" =
      .error (.invalidArgument appNameSpecifiedError) ∧
    GetInstancesFromArgs ["myapp"] "myapp" =
      .error (.invalidArgument appNameSpecifiedError) :=
  ⟨C6_app_name_rejected ["instance-1", "myapp"] "myapp" (by decide) (by decide),
   C6_app_name_rejected ["myapp"] "myapp" (by decide) (by decide)⟩

/-! ## Claim C7: negative line counts behave as their magnitude -/

/-- C7: for every file content and every integer `n`, the tail offset
finder returns the same result for `n` and `-n`: only the absolute value
of the requested line count matters. -/
theorem C7_neg_count_same_result (s : List Char) (n : Int) :
    GetLastNLinesBegin s (-n) = GetLastNLinesBegin s n := by
  unfold GetLastNLinesBegin
  rw [Int.natAbs_neg]

/-! ## Claim C4: duplicate detection and identity on clean argument lists -/

theorem firstDupAux_eq_none_iff (l : List String) :
    ∀ seen : List String,
      (firstDupAux seen l = none ↔ l.Nodup ∧ ∀ x ∈ l, x ∉ seen) := by
  induction l with
  | nil => intro seen; simp [firstDupAux]
  | cons x xs ih =>
    intro seen
    unfold firstDupAux
    by_cases hx : x ∈ seen
    · simp only [if_pos hx]
      constructor
      · intro h; exact absurd h (by simp)
      · rintro ⟨-, hall⟩
        exact absurd hx (hall x (List.mem_cons_self x xs))
    · rw [if_neg hx, ih (x :: seen)]
      constructor
      · rintro ⟨hnd, hall⟩
        have hxnotxs : x ∉ xs := fun hxmem =>
          (hall x hxmem) (List.mem_cons_self x seen)
        refine ⟨List.nodup_cons.mpr ⟨hxnotxs, hnd⟩, ?_⟩
        intro y hy
        rcases List.mem_cons.mp hy with rfl | hymem
        · exact hx
        · exact fun hyseen =>
            (hall y hymem) (List.mem_cons.mpr (Or.inr hyseen))
      · rintro ⟨hnd, hall⟩
        obtain ⟨hxnotxs, hndxs⟩ := List.nodup_cons.mp hnd
        refine ⟨hndxs, ?_⟩
        intro y hy hymem
        rcases List.mem_cons.mp hymem with rfl | hyseen
        · exact hxnotxs hy
        · exact (hall y (List.mem_cons.mpr (Or.inr hy))) hyseen

theorem firstDup_eq_none_iff (args : List String) :
    firstDup args = none ↔ args.Nodup := by
  rw [firstDup, firstDupAux_eq_none_iff args []]
  simp

/-- C4: on a `.`-free argument list that does not contain the application
name, the parser fails with an InvalidArgument error naming the first
duplicate scanning left to right when some name is repeated, and otherwise
returns the argument list unchanged, in the order supplied. -/
theorem C4_duplicates_and_identity (args : List String) (appName : String)
    (h1 : args.any (fun a => a.toList.contains '.') = false)
    (h2 : appName ∉ args) :
    (¬ args.Nodup → ∃ d, firstDup args = some d ∧
      GetInstancesFromArgs args appName =
        .error (.invalidArgument (duplicateInstanceError d))) ∧
    (args.Nodup → GetInstancesFromArgs args appName = .ok args) := by
  unfold GetInstancesFromArgs
  rw [h1]
  constructor
  · intro hdup
    have hne : firstDup args ≠ none := fun h =>
      hdup ((firstDup_eq_none_iff args).mp h)
    obtain ⟨d, hd⟩ := Option.ne_none_iff_exists'.mp hne
    refine ⟨d, hd, ?_⟩
    simp [h2, hd]
  · intro hnd
    have hnone : firstDup args = none := (firstDup_eq_none_iff args).mpr hnd
    simp [h2, hnone]

theorem C4_witness :
    GetInstancesFromArgs ["instance-1", "instance-1"] "myapp" =
      .error (.invalidArgument (duplicateInstanceError "instance-1")) ∧
    GetInstancesFromArgs ["instance-1", "instance-2"] "myapp" =
      .ok ["instance-1", "instance-2"] := by
  constructor
  · obtain ⟨d, hd, he⟩ :=
      (C4_duplicates_and_identity ["instance-1", "instance-1"] "myapp"
        (by decide) (by decide)).1 (by decide)
    have hval : firstDup ["instance-1", "instance-1"] = some "instance-1" := by decide
    rw [hval] at hd
    rw [Option.some.injEq] at hd
    subst hd
    exact he
  · exact (C4_duplicates_and_identity ["instance-1", "instance-2"] "myapp"
      (by decide) (by decide)).2 (by decide)

/-! ## Claims C8 and C10: CPIO archive builder error behavior -/

theorem cpioLookup_write_same (fs : CpioFS) (p : String) (c : String) :
    (fs.write p c).lookup p = some c := by
  simp [CpioFS.lookup, CpioFS.write, List.find?_cons]

/-- C8: whenever the archiver process exits with a non-zero status (the
output file having been created), `packCpio` returns an
ExternalToolFailure whose message contains both the full invoked command
line and the archiver's captured standard error; on a zero exit status it
returns no error. -/
theorem C8_pack_cpio_error_reporting (relPaths : List String)
    (resFileName : String) (env : CpioEnv) (fs : CpioFS)
    (hcreate : env.createOk = true) :
    (env.exitOk = false →
      ∃ msg, (packCpio relPaths resFileName env fs).2 =
          .error (.externalToolFailure msg) ∧
        (∃ a b, msg = a ++ (cpioCmdString env ++ b)) ∧
        (∃ c, msg = c ++ env.stderr)) ∧
    (env.exitOk = true →
      (packCpio relPaths resFileName env fs).2 = .ok ()) := by
  constructor
  · intro hexit
    refine ⟨"Failed to run \n" ++ cpioCmdString env ++ "\n\nStderr: " ++ env.stderr,
      ?_, ⟨"Failed to run \n", "\n\nStderr: " ++ env.stderr, ?_⟩,
      ⟨"Failed to run \n" ++ cpioCmdString env ++ "\n\nStderr: ", ?_⟩⟩
    · simp [packCpio, hcreate, hexit]
    · simp [String.append_assoc]
    · rfl
  · intro hexit
    simp [packCpio, hcreate, hexit]

def cpioEnvFail : CpioEnv :=
  { cpioPath := "/usr/bin/cpio", createOk := true, exitOk := false,
    stderr := "cpio: ./missing: Cannot stat: No such file or directory",
    output := fun _ => "0707" }

theorem C8_witness :
    ∃ msg, (packCpio ["VERSION", "app.lua"] "app.cpio" cpioEnvFail ⟨[]⟩).2 =
        .error (.externalToolFailure msg) ∧
      (∃ a b, msg = a ++ (cpioCmdString cpioEnvFail ++ b)) ∧
      (∃ c, msg = c ++ cpioEnvFail.stderr) :=
  (C8_pack_cpio_error_reporting ["VERSION", "app.lua"] "app.cpio" cpioEnvFail
    ⟨[]⟩ rfl).1 rfl

/-- C10: `packCpio` creates/truncates the output file before spawning the
archiver, so when the archiver exits non-zero the ExternalToolFailure is
returned with the output file still present on disk, holding whatever the
archiver streamed out (possibly nothing): the builder is not atomic and
the prior state of the path is not restored, whatever the initial file
system held there. -/
theorem C10_failed_pack_leaves_output_file (relPaths : List String)
    (resFileName : String) (env : CpioEnv) (fs : CpioFS)
    (hcreate : env.createOk = true) (hexit : env.exitOk = false) :
    (∃ msg, (packCpio relPaths resFileName env fs).2 =
      .error (.externalToolFailure msg)) ∧
    (packCpio relPaths resFileName env fs).1.lookup resFileName =
      some (env.output (cpioStdin relPaths)) := by
  constructor
  · exact ⟨"Failed to run \n" ++ cpioCmdString env ++ "\n\nStderr: " ++ env.stderr,
      by simp [packCpio, hcreate, hexit]⟩
  · simp only [packCpio, hcreate, hexit, Bool.not_true, Bool.false_eq_true,
      if_false]
    exact cpioLookup_write_same _ _ _

theorem C10_witness :
    (∃ msg, (packCpio ["VERSION"] "app.cpio" cpioEnvFail
        ⟨[("app.cpio", "previous archive bytes")]⟩).2 =
      .error (.externalToolFailure msg)) ∧
    (packCpio ["VERSION"] "app.cpio" cpioEnvFail
        ⟨[("app.cpio", "previous archive bytes")]⟩).1.lookup "app.cpio" =
      some (cpioEnvFail.output (cpioStdin ["VERSION"])) :=
  C10_failed_pack_leaves_output_file ["VERSION"] "app.cpio" cpioEnvFail
    ⟨[("app.cpio", "previous archive bytes")]⟩ rfl rfl

/-! ## File-system lemmas for the completion generator -/

theorem find_filter_ne {α : Type} (l : List (String × α)) (p q : String)
    (h : q ≠ p) :
    (l.filter (fun e => e.1 != p)).find? (fun e => e.1 == q) =
      l.find? (fun e => e.1 == q) := by
  induction l with
  | nil => rfl
  | cons e rest ih =>
    rcases eq_or_ne e.1 p with hep | hep
    · have hq : (e.1 == q) = false := by
        rw [beq_eq_false_iff_ne, hep]
        exact fun hh => h hh.symm
      have hfp : (e.1 != p) = false := by simp [hep]
      rw [List.filter_cons, hfp]
      simp only [Bool.false_eq_true, if_false]
      rw [ih, List.find?_cons, hq]
    · have hfp : (e.1 != p) = true := by simp [hep]
      rw [List.filter_cons, hfp]
      simp only [if_true]
      rw [List.find?_cons, List.find?_cons]
      rcases hq : (e.1 == q) with _ | _
      · exact ih
      · rfl

theorem FS.lookup_write_same (fs : FS) (p : String) (c : List String) :
    (fs.write p c).lookup p = some c := by
  simp [FS.lookup, FS.write, List.find?_cons]

theorem FS.lookup_write_ne (fs : FS) (p q : String) (c : List String)
    (h : q ≠ p) :
    (fs.write p c).lookup q = fs.lookup q := by
  unfold FS.lookup FS.write
  simp only []
  rw [List.find?_cons]
  have hq : (p == q) = false := by
    rw [beq_eq_false_iff_ne]; exact fun hh => h hh.symm
  rw [hq]
  rw [find_filter_ne fs.files p q h]

theorem FS.lookup_removeAll_ne (fs : FS) (p q : String) (h : q ≠ p) :
    (fs.removeAll p).lookup q = fs.lookup q := by
  unfold FS.lookup FS.removeAll
  simp only []
  rw [find_filter_ne fs.files p q h]

theorem replaceFileLines_write (fs : FS) (p : String) (c : List String)
    (f : String → String) :
    replaceFileLines (fs.write p c) p f = (fs.write p c).write p (c.map f) := by
  unfold replaceFileLines
  rw [FS.lookup_write_same]

theorem FS.lookup_mkdirAll (fs : FS) (d p : String) :
    (fs.mkdirAll d).lookup p = fs.lookup p := rfl

/-! ## Claim C2: effect of skipping a shell -/

/-- C2 counterexample: starting from an empty file system, `gen
completion --skip-bash` still creates the Bash destination directory
`completion/bash` — both completion directories are created before the
skip flags are consulted (`gen.go` lines 113-122) — so the claim that no
generation step is performed for a skipped shell is false. -/
theorem C2_counterexample :
    (FS.mk [] []).dirs = [] ∧
    "completion/bash" ∈ (genCompletion true false "completion/bash/cartridge"
      "completion/zsh/_cartridge" ["bash script"] ["zsh script"]
      (FS.mk [] [])).dirs := by
  constructor
  · rfl
  · decide

/-- C2 (amended): given `--skip-bash`, no pre-existing file at the Bash
destination path is removed and no Bash script is written — the file
entry at the Bash path is untouched and only the Zsh output file is
produced — but the Bash destination directory is still created: both
completion directories are created unconditionally, before the skip flags
are consulted. -/
theorem C2_skip_bash_frame (bashPath zshPath : String)
    (bashScript zshScript : List String) (fs : FS)
    (hne : bashPath ≠ zshPath) :
    (genCompletion true false bashPath zshPath bashScript zshScript fs).lookup
        bashPath = fs.lookup bashPath ∧
    (genCompletion true false bashPath zshPath bashScript zshScript fs).lookup
        zshPath = some zshScript ∧
    (genCompletion true false bashPath zshPath bashScript zshScript fs).dirs
      = dirOf zshPath :: dirOf bashPath :: fs.dirs := by
  have hred : genCompletion true false bashPath zshPath bashScript zshScript fs
      = ((((fs.mkdirAll (dirOf bashPath)).mkdirAll (dirOf zshPath)).removeAll
          zshPath).write zshPath zshScript) := rfl
  rw [hred]
  refine ⟨?_, ?_, rfl⟩
  · rw [FS.lookup_write_ne _ _ _ _ hne, FS.lookup_removeAll_ne _ _ _ hne]
    rfl
  · rw [FS.lookup_write_same]

def preexistingBashFS : FS :=
  FS.mk ["etc"] [("completion/bash/cartridge", ["old bash completion"])]

theorem C2_witness :
    (genCompletion true false "completion/bash/cartridge"
        "completion/zsh/_cartridge" ["bash script"] ["zsh script"]
        preexistingBashFS).lookup "completion/bash/cartridge"
      = preexistingBashFS.lookup "completion/bash/cartridge" ∧
    (genCompletion true false "completion/bash/cartridge"
        "completion/zsh/_cartridge" ["bash script"] ["zsh script"]
        preexistingBashFS).lookup "completion/zsh/_cartridge"
      = some ["zsh script"] ∧
    (genCompletion true false "completion/bash/cartridge"
        "completion/zsh/_cartridge" ["bash script"] ["zsh script"]
        preexistingBashFS).dirs
      = dirOf "completion/zsh/_cartridge" :: dirOf "completion/bash/cartridge"
          :: preexistingBashFS.dirs :=
  C2_skip_bash_frame "completion/bash/cartridge" "completion/zsh/_cartridge"
    ["bash script"] ["zsh script"] preexistingBashFS (by decide)

/-! ## Claim C9: two-word flag lines are commented out in the Bash script -/

/-- C9: when Bash generation is not skipped, the Bash output file holds
the generated script rewritten line by line by `commentTwoWordFlags`, and
in that result every line matching the Go regexp
`two_word_flags\+=\("--[\w-]+"\)` carries the `# ` comment marker in
front: the script contains no uncommented line of that form. -/
theorem C9_two_word_flags_commented (skipZsh : Bool) (bashPath zshPath : String)
    (bashScript zshScript : List String) (fs : FS)
    (hne : bashPath ≠ zshPath) :
    (genCompletion false skipZsh bashPath zshPath bashScript zshScript fs).lookup
        bashPath = some (bashScript.map commentTwoWordFlags) ∧
    ∀ l ∈ bashScript.map commentTwoWordFlags,
      matchesTwoWordFlags l = true → ∃ rest, l = "# " ++ rest := by
  constructor
  · have hbase :
        (replaceFileLines ((((fs.mkdirAll (dirOf bashPath)).mkdirAll
            (dirOf zshPath)).removeAll bashPath).write bashPath bashScript)
          bashPath commentTwoWordFlags).lookup bashPath
          = some (bashScript.map commentTwoWordFlags) := by
      rw [replaceFileLines_write, FS.lookup_write_same]
    cases skipZsh with
    | true =>
      have hred : genCompletion false true bashPath zshPath bashScript zshScript fs
          = replaceFileLines ((((fs.mkdirAll (dirOf bashPath)).mkdirAll
              (dirOf zshPath)).removeAll bashPath).write bashPath bashScript)
            bashPath commentTwoWordFlags := rfl
      rw [hred, hbase]
    | false =>
      have hred : genCompletion false false bashPath zshPath bashScript zshScript fs
          = ((replaceFileLines ((((fs.mkdirAll (dirOf bashPath)).mkdirAll
              (dirOf zshPath)).removeAll bashPath).write bashPath bashScript)
              bashPath commentTwoWordFlags).removeAll zshPath).write zshPath
              zshScript := rfl
      rw [hred, FS.lookup_write_ne _ _ _ _ hne,
        FS.lookup_removeAll_ne _ _ _ hne, hbase]
  · intro l hl hm
    obtain ⟨x, hx, hxl⟩ := List.mem_map.mp hl
    subst hxl
    rcases hmx : matchesTwoWordFlags x with _ | _
    · rw [commentTwoWordFlags, hmx] at hm
      simp only [Bool.false_eq_true, if_false] at hm
      rw [hmx] at hm
      exact absurd hm (by simp)
    · refine ⟨x, ?_⟩
      rw [commentTwoWordFlags, if_pos hmx]

def sampleBashScript : List String :=
  ["    flags_with_completion+=(\"--name\")",
   "    two_word_flags+=(\"--name\")",
   "    two_word_flags+=(\"--run-dir\")",
   "    commands+=(\"start\")"]

theorem C9_witness :
    (genCompletion false false "completion/bash/cartridge"
        "completion/zsh/_cartridge" sampleBashScript ["zsh script"]
        (FS.mk [] [])).lookup "completion/bash/cartridge"
      = some (sampleBashScript.map commentTwoWordFlags) ∧
    ∀ l ∈ sampleBashScript.map commentTwoWordFlags,
      matchesTwoWordFlags l = true → ∃ rest, l = "# " ++ rest :=
  C9_two_word_flags_commented false "completion/bash/cartridge"
    "completion/zsh/_cartridge" sampleBashScript ["zsh script"]
    (FS.mk [] []) (by decide)

/-! ## Claim C3: the tail offset contract

The lemmas below show that reading from the returned offset to
end-of-file yields exactly the last `|n|` lines: the offset is `0` or
sits immediately after a newline, and the dropped suffix counts exactly
`|n|` lines. -/

theorem offsetAfterNl_nil (k : Nat) : offsetAfterNl [] k = 0 := by
  cases k <;> rfl

theorem offsetAfterNl_zero (s : List Char) : offsetAfterNl s 0 = 0 := by
  cases s <;> rfl

theorem countNl_cons (c : Char) (rest : List Char) :
    countNl (c :: rest) = (if c = '\n' then 1 else 0) + countNl rest := rfl

theorem endsWithNl_cons_cons (a b : Char) (rest : List Char) :
    endsWithNl (a :: b :: rest) = endsWithNl (b :: rest) := rfl

theorem offsetAfterNl_le_length (s : List Char) :
    ∀ k, offsetAfterNl s k ≤ s.length := by
  induction s with
  | nil => intro k; rw [offsetAfterNl_nil]; exact Nat.zero_le _
  | cons c rest ih =>
    intro k
    cases k with
    | zero => rw [offsetAfterNl_zero]; exact Nat.zero_le _
    | succ k' =>
      simp only [offsetAfterNl, List.length_cons]
      by_cases hc : c = '\n'
      · rw [if_pos hc]; have := ih k'; omega
      · rw [if_neg hc]; have := ih (k' + 1); omega

theorem countNl_drop (s : List Char) : ∀ k, k ≤ countNl s →
    countNl (s.drop (offsetAfterNl s k)) = countNl s - k := by
  induction s with
  | nil =>
    intro k hk
    rw [offsetAfterNl_nil]
    simp [countNl]
  | cons c rest ih =>
    intro k hk
    cases k with
    | zero => rw [offsetAfterNl_zero]; simp
    | succ k' =>
      simp only [offsetAfterNl]
      by_cases hc : c = '\n'
      · rw [if_pos hc]
        have hk' : k' ≤ countNl rest := by
          rw [countNl_cons, if_pos hc] at hk; omega
        have hdrop : (c :: rest).drop (1 + offsetAfterNl rest k')
            = rest.drop (offsetAfterNl rest k') := by
          rw [Nat.add_comm 1 (offsetAfterNl rest k'), List.drop_succ_cons]
        rw [hdrop, ih k' hk', countNl_cons, if_pos hc]
        omega
      · rw [if_neg hc]
        have hk' : k' + 1 ≤ countNl rest := by
          rw [countNl_cons, if_neg hc] at hk; omega
        have hdrop : (c :: rest).drop (1 + offsetAfterNl rest (k' + 1))
            = rest.drop (offsetAfterNl rest (k' + 1)) := by
          rw [Nat.add_comm 1 (offsetAfterNl rest (k' + 1)), List.drop_succ_cons]
        rw [hdrop, ih (k' + 1) hk', countNl_cons, if_neg hc]
        omega

theorem one_le_offsetAfterNl (s : List Char) (k : Nat) (h1 : 1 ≤ k)
    (hk : k ≤ countNl s) : 1 ≤ offsetAfterNl s k := by
  cases s with
  | nil => simp [countNl] at hk; omega
  | cons c rest =>
    cases k with
    | zero => omega
    | succ k' =>
      simp only [offsetAfterNl]
      by_cases hc : c = '\n'
      · rw [if_pos hc]; omega
      · rw [if_neg hc]; omega

theorem get_offsetAfterNl (s : List Char) : ∀ k, 1 ≤ k → k ≤ countNl s →
    s.get? (offsetAfterNl s k - 1) = some '\n' := by
  induction s with
  | nil => intro k h1 hk; simp [countNl] at hk; omega
  | cons c rest ih =>
    intro k h1 hk
    cases k with
    | zero => omega
    | succ k' =>
      simp only [offsetAfterNl]
      by_cases hc : c = '\n'
      · rw [if_pos hc]
        rcases Nat.eq_zero_or_pos k' with hz | hpos
        · subst hz
          rw [offsetAfterNl_zero]
          simp [hc]
        · have hk' : k' ≤ countNl rest := by
            rw [countNl_cons, if_pos hc] at hk; omega
          have hoff : 1 ≤ offsetAfterNl rest k' :=
            one_le_offsetAfterNl rest k' hpos hk'
          have harith : 1 + offsetAfterNl rest k' - 1
              = (offsetAfterNl rest k' - 1) + 1 := by omega
          rw [harith, List.get?_cons_succ]
          exact ih k' hpos hk'
      · rw [if_neg hc]
        have hk' : k' + 1 ≤ countNl rest := by
          rw [countNl_cons, if_neg hc] at hk; omega
        have hoff : 1 ≤ offsetAfterNl rest (k' + 1) :=
          one_le_offsetAfterNl rest (k' + 1) (by omega) hk'
        have harith : 1 + offsetAfterNl rest (k' + 1) - 1
            = (offsetAfterNl rest (k' + 1) - 1) + 1 := by omega
        rw [harith, List.get?_cons_succ]
        exact ih (k' + 1) (by omega) hk'

theorem endsWithNl_drop (s : List Char) : ∀ i, i < s.length →
    endsWithNl (s.drop i) = endsWithNl s := by
  induction s with
  | nil => intro i hi; simp at hi
  | cons c rest ih =>
    intro i hi
    cases i with
    | zero => rfl
    | succ i' =>
      have hi' : i' < rest.length := by
        simp only [List.length_cons] at hi; omega
      rw [List.drop_succ_cons, ih i' hi']
      cases rest with
      | nil => simp at hi'
      | cons b tail => rfl

theorem offsetAfterNl_eq_length (s : List Char) : ∀ k, k ≤ countNl s →
    offsetAfterNl s k = s.length →
    countNl s = k ∧ (s = [] ∨ endsWithNl s = true) := by
  induction s with
  | nil =>
    intro k hk _
    simp [countNl] at hk ⊢
    omega
  | cons c rest ih =>
    intro k hk hlen
    cases k with
    | zero =>
      rw [offsetAfterNl_zero] at hlen
      simp at hlen
    | succ k' =>
      simp only [offsetAfterNl] at hlen
      by_cases hc : c = '\n'
      · rw [if_pos hc] at hlen
        have hlen' : offsetAfterNl rest k' = rest.length := by
          simp only [List.length_cons] at hlen; omega
        have hk' : k' ≤ countNl rest := by
          rw [countNl_cons, if_pos hc] at hk; omega
        obtain ⟨hcnt, hor⟩ := ih k' hk' hlen'
        refine ⟨by rw [countNl_cons, if_pos hc]; omega, Or.inr ?_⟩
        rcases hor with rfl | hend
        · simp [endsWithNl, hc]
        · cases rest with
          | nil => simp [endsWithNl] at hend
          | cons b tail => rw [endsWithNl_cons_cons]; exact hend
      · rw [if_neg hc] at hlen
        have hlen' : offsetAfterNl rest (k' + 1) = rest.length := by
          simp only [List.length_cons] at hlen; omega
        have hk' : k' + 1 ≤ countNl rest := by
          rw [countNl_cons, if_neg hc] at hk; omega
        obtain ⟨hcnt, hor⟩ := ih (k' + 1) hk' hlen'
        refine ⟨by rw [countNl_cons, if_neg hc]; omega, Or.inr ?_⟩
        rcases hor with rfl | hend
        · simp [countNl] at hcnt
        · cases rest with
          | nil => simp [endsWithNl] at hend
          | cons b tail => rw [endsWithNl_cons_cons]; exact hend

theorem totalLines_drop (s : List Char) (k : Nat) (hk : k ≤ countNl s) :
    totalLines (s.drop (offsetAfterNl s k)) = totalLines s - k := by
  have hle := offsetAfterNl_le_length s k
  rcases Nat.lt_or_ge (offsetAfterNl s k) s.length with hlt | hge
  · have hdropne : s.drop (offsetAfterNl s k) ≠ [] := by
      intro hnil
      have hll := List.drop_eq_nil_iff.mp hnil
      omega
    have hsne : s ≠ [] := by
      intro h; subst h; simp at hlt
    have hends := endsWithNl_drop s (offsetAfterNl s k) hlt
    have hcnt := countNl_drop s k hk
    have hA : totalLines (s.drop (offsetAfterNl s k))
        = countNl s - k + (if endsWithNl s = true then 0 else 1) := by
      unfold totalLines
      rw [if_neg (by simpa [List.isEmpty_iff] using hdropne), hcnt, hends]
    have hB : totalLines s
        = countNl s + (if endsWithNl s = true then 0 else 1) := by
      unfold totalLines
      rw [if_neg (by simpa [List.isEmpty_iff] using hsne)]
    rw [hA, hB]
    cases hE : endsWithNl s with
    | false => simp; omega
    | true => simp
  · have heq : offsetAfterNl s k = s.length := le_antisymm hle hge
    obtain ⟨hcnt, hor⟩ := offsetAfterNl_eq_length s k hk heq
    rw [heq, List.drop_length]
    rcases hor with rfl | hend
    · simp [totalLines, countNl] at hcnt ⊢
    · have hsne : s ≠ [] := by
        intro h; subst h; simp [endsWithNl] at hend
      have hts : totalLines s = countNl s := by
        unfold totalLines
        rw [if_neg (by simpa [List.isEmpty_iff] using hsne), hend]
        simp
      have h0 : totalLines ([] : List Char) = 0 := rfl
      rw [h0, hts, hcnt]
      omega

/-- C3: for every file content and integer `n`, `GetLastNLinesBegin`
returns `0` when `n = 0` (whatever the content, trailing newline or not)
and when the file has fewer lines than `|n|`; otherwise it returns the
offset immediately after the `(totalLines - |n|)`-th newline, and reading
from that offset to end-of-file yields exactly the last `|n|` lines: the
offset is `0` or sits immediately after a newline character, and the
suffix from it counts exactly `|n|` newline-delimited lines (a trailing
newline of the file stays part of the suffix, as the suffix runs to
end-of-file). -/
theorem C3_tail_offset_contract (s : List Char) (n : Int) :
    (n = 0 → GetLastNLinesBegin s n = 0) ∧
    (totalLines s < n.natAbs → GetLastNLinesBegin s n = 0) ∧
    (n ≠ 0 → n.natAbs ≤ totalLines s →
      GetLastNLinesBegin s n = offsetAfterNl s (totalLines s - n.natAbs) ∧
      totalLines (s.drop (GetLastNLinesBegin s n)) = n.natAbs ∧
      (GetLastNLinesBegin s n = 0 ∨
        s.get? (GetLastNLinesBegin s n - 1) = some '\n')) := by
  refine ⟨?_, ?_, ?_⟩
  · intro h
    subst h
    rfl
  · intro h
    unfold GetLastNLinesBegin
    by_cases h0 : n.natAbs = 0
    · rw [if_pos h0]
    · rw [if_neg h0, if_pos h]
  · intro hn hle
    have h0 : n.natAbs ≠ 0 := fun h => hn (Int.natAbs_eq_zero.mp h)
    have ha : 1 ≤ n.natAbs := Nat.pos_of_ne_zero h0
    have hnotlt : ¬ totalLines s < n.natAbs := not_lt.mpr hle
    have hred : GetLastNLinesBegin s n
        = offsetAfterNl s (totalLines s - n.natAbs) := by
      unfold GetLastNLinesBegin
      rw [if_neg h0, if_neg hnotlt]
    have hk : totalLines s - n.natAbs ≤ countNl s := by
      by_cases hemp : s.isEmpty
      · unfold totalLines
        rw [if_pos hemp]
        omega
      · unfold totalLines
        rw [if_neg hemp]
        cases endsWithNl s with
        | false => simp; omega
        | true => simp
    refine ⟨hred, ?_, ?_⟩
    · rw [hred, totalLines_drop s _ hk]
      omega
    · rw [hred]
      rcases Nat.eq_zero_or_pos (totalLines s - n.natAbs) with hz | hpos
      · left
        rw [hz, offsetAfterNl_zero]
      · right
        exact get_offsetAfterNl s _ hpos hk

theorem C3_witness :
    GetLastNLinesBegin sevenLines 2
        = offsetAfterNl sevenLines (totalLines sevenLines - (2 : Int).natAbs) ∧
    totalLines (sevenLines.drop (GetLastNLinesBegin sevenLines 2))
        = (2 : Int).natAbs ∧
    (GetLastNLinesBegin sevenLines 2 = 0 ∨
      sevenLines.get? (GetLastNLinesBegin sevenLines 2 - 1) = some '\n') :=
  (C3_tail_offset_contract sevenLines 2).2.2 (by decide) (by decide)
